import Mathlib

/-!
# Verification of the ConciliaPDF core (src/main.py)

A shallow embedding of the core functions of `src/main.py`:

* `br_money_to_float` (lines 68-87) — the Brazilian-currency parser.
  As written, its first statement (line 73, `if not clean: return 0.0`)
  reads the local variable `clean` before its first assignment (line 76),
  so CPython raises `UnboundLocalError` on every call.  We embed the
  function as an `Except`-valued computation that errors accordingly, and
  embed the remainder of the body (lines 76-87, dead code as written, and
  plainly the intended behaviour: line 77 repeats the same guard correctly,
  after the assignment) as `br_money_to_float_rest`.
* `format_br` (lines 89-95) — currency rendering, restricted to its
  meaningful domain (non-negative values exact in two decimals, represented
  here by an amount of cents `n : Nat`; Python's `"%,.2f"` formatting of
  the closest binary double to such a value prints that value exactly).
* `clean_ocr_text` (lines 97-110) — the OCR-artifact normalizer.
* `extrair_valor` (lines 137-190) — the amount extractor, including a
  faithful model of `re.findall(r"(\d{1,3}(?:\.\d{3})*,\d{2})", _)`.
* `ler_conteudo_pdf` (lines 114-133) — the document reader, over an
  abstract model of a PDF (per-page extraction results and OCR results,
  with `Except.error` standing for a raised exception).
* `processar_lista` — called at line 332 but not defined in the provided
  sources; modelled from the spec (section 4.5).

Python strings are modelled as Lean `String`/`List Char`; `float` results
are modelled exactly as `ℚ` (no claim under study depends on binary
rounding); `str.replace` is modelled by `pyReplace` (left-to-right,
non-overlapping replacement); Unicode-sensitive operations (`str.upper`,
`\d` in regexes, `str.strip`) are modelled on the ASCII range plus the
accented characters that actually occur in the program's string literals.
-/

/-! ## Definitions -/

/-- Worker for `pyReplace`, structurally recursive on a fuel argument so
that it evaluates by kernel reduction; `fuel ≥ s.length` makes the fuel
irrelevant (`pyRepF_fuel`). -/
def pyRepF (p : Char) (ps rep : List Char) : Nat → List Char → List Char
  | 0, s => s
  | _ + 1, [] => []
  | fuel + 1, c :: rest =>
    if (p :: ps) <+: (c :: rest) then
      rep ++ pyRepF p ps rep fuel (List.drop ps.length rest)
    else
      c :: pyRepF p ps rep fuel rest

/-- Python `s.replace(pat, rep)` for a non-empty pattern `p :: ps`:
scan left to right, replace each non-overlapping occurrence. -/
def pyReplace (p : Char) (ps rep : List Char) (s : List Char) : List Char :=
  pyRepF p ps rep s.length s

/-- Numeric value of a decimal digit character. -/
def digitVal (c : Char) : ℕ := c.toNat - 48

/-- Value of a most-significant-first digit string (Python `float`/`int`
digit semantics). -/
def digitsVal (ds : List Char) : ℕ := ds.foldl (fun a c => 10 * a + digitVal c) 0

/-- The decimal digit character for `d < 10`. -/
def dChar (d : ℕ) : Char := Char.ofNat (48 + d)

/-- Worker for `natDigits`, structurally recursive on a fuel argument so
that it evaluates by kernel reduction (`n ≤ fuel` makes the fuel
irrelevant, `natDigitsF_fuel`). -/
def natDigitsF : Nat → Nat → List Char
  | 0, n => [dChar n]
  | fuel + 1, n =>
    if n < 10 then [dChar n]
    else natDigitsF fuel (n / 10) ++ [dChar (n % 10)]

/-- Decimal digit string of `n`, most significant first (as printed by
Python's f-string formatting of the integer part). -/
def natDigits (n : ℕ) : List Char := natDigitsF n n

/-- Python `float(s)` restricted to the character repertoire reachable in
this program (digit and period characters after cleaning): an optional
integer digit run, an optional period, an optional fraction digit run, at
least one digit overall, nothing else.  `none` models `ValueError`.  The
value is built with `mkRat` so that it evaluates by kernel reduction. -/
def parsePyFloat (s : List Char) : Option ℚ :=
  let intPart := s.takeWhile (fun c => c ≠ '.')
  let rest := s.dropWhile (fun c => c ≠ '.')
  if intPart.all Char.isDigit then
    match rest with
    | [] => if intPart = [] then none else some (mkRat (digitsVal intPart) 1)
    | _ :: frac =>
      if frac.all Char.isDigit ∧ (intPart ≠ [] ∨ frac ≠ []) then
        some (mkRat (digitsVal intPart * 10 ^ frac.length + digitsVal frac)
          (10 ^ frac.length))
      else none
  else none

/-- The character class kept by the cleaning substitution of
src/main.py line 76, which removes everything that is not a digit, a comma
or a period (ASCII digits; the other Unicode digits the pattern also
admits do not occur here). -/
def moneyChar (c : Char) : Bool := c.isDigit || c = ',' || c = '.'

/-- Diagnostic of the exception raised by `br_money_to_float`. -/
def unboundLocalClean : String :=
  "UnboundLocalError: local variable 'clean' referenced before assignment"

/-- Embeds `br_money_to_float` (src/main.py lines 68-87) as executed by
CPython.  Its first statement, `if not clean: return 0.0` (line 73), reads
the local variable `clean`, whose first assignment is only at line 76, so
the call raises `UnboundLocalError` before any other statement runs, for
every argument.  The remainder of the body (lines 76-87, unreachable) is
embedded separately as `br_money_to_float_rest`. -/
def br_money_to_float (_raw : String) : Except String ℚ :=
  Except.error unboundLocalClean

/-- Lines 76-87 of `br_money_to_float`: the code after the faulty guard
(the guard at line 77 repeats it correctly, after the assignment), i.e.
what the function computes once the line-73 slip is removed:
strip every character that is not a digit, comma or period; if nothing is
left return 0; remove periods, turn the comma into a period, and parse;
on `ValueError` return 0. -/
def br_money_to_float_rest (raw : String) : ℚ :=
  if raw.data.filter moneyChar = [] then 0
  else
    match parsePyFloat (pyReplace ',' [] ['.']
        (pyReplace '.' [] [] (raw.data.filter moneyChar))) with
    | some q => q
    | none => 0

/-- Insert `sep` after every three characters of a least-significant-first
digit list (the grouping of Python's format specifier with a comma),
operating on the reversed digit string. -/
def group3rev (sep : Char) : List Char → List Char
  | a :: b :: c :: d :: rest => a :: b :: c :: sep :: group3rev sep (d :: rest)
  | xs => xs

/-- Embeds `format_br` (src/main.py lines 89-95) on its meaningful domain:
a non-negative amount exact in two decimals, given as `n` cents.
The f-string with format `,.2f` renders the integer part with comma
thousands grouping and two fraction digits; the three `replace` calls
(via the `X` placeholder) then swap commas and periods.  (Python formats
the closest binary double to such a value as exactly that value.) -/
def format_br (n : ℕ) : String :=
  let pyF := (group3rev ',' (natDigits (n / 100)).reverse).reverse
    ++ '.' :: [dChar (n / 10 % 10), dChar (n % 10)]
  String.mk (pyReplace 'X' [] ['.']
    (pyReplace '.' [] [','] (pyReplace ',' [] ['X'] pyF)))

/-- Embeds `clean_ocr_text` (src/main.py lines 97-110): if the text is
empty return the empty string; otherwise remove `|`, replace `!` and
lowercase `l` by `1`, remove the two-character sequence `$=`, and pad
every remaining `=` with spaces — in that order, each pass over the whole
string. -/
def clean_ocr_text (text : String) : String :=
  if text = "" then ""
  else
    String.mk (pyReplace '=' [] [' ', '=', ' ']
      (pyReplace '$' ['='] [' ']
        (pyReplace 'l' [] ['1']
          (pyReplace '!' [] ['1']
            (pyReplace '|' [] [] text.data)))))

instance {ε α : Type} [DecidableEq ε] [DecidableEq α] :
    DecidableEq (Except ε α) := fun a b =>
  match a, b with
  | Except.ok x, Except.ok y =>
    if h : x = y then Decidable.isTrue (by rw [h])
    else Decidable.isFalse (by intro he; cases he; exact h rfl)
  | Except.error x, Except.error y =>
    if h : x = y then Decidable.isTrue (by rw [h])
    else Decidable.isFalse (by intro he; cases he; exact h rfl)
  | Except.ok _, Except.error _ => Decidable.isFalse (by intro he; cases he)
  | Except.error _, Except.ok _ => Decidable.isFalse (by intro he; cases he)

/-- Python `str.upper` restricted to the characters that can interact with
the program's keyword literals: ASCII letters, plus the accented letter of
`"NOTA DE DÉBITO"` (the only non-ASCII character in the keyword set). -/
def pyUpperChar (c : Char) : Char :=
  if c = 'é' then 'É' else c.toUpper

def pyUpper (s : String) : String := String.mk (s.data.map pyUpperChar)

/-- Python's `in` operator on strings (contiguous substring test). -/
def substrOf (pat : List Char) : List Char → Bool
  | [] => pat.isEmpty
  | c :: rest => pat.isPrefixOf (c :: rest) || substrOf pat rest

/-- Candidates for `\d{1,3}` at the head of `s`, in the greedy
backtracking order of Python's `re` engine: three digits, then two, then
one. -/
def digitCands (s : List Char) : List (List Char × List Char) :=
  (match s with
   | a :: b :: c :: r =>
     if a.isDigit && b.isDigit && c.isDigit then [([a, b, c], r)] else []
   | _ => []) ++
  (match s with
   | a :: b :: r => if a.isDigit && b.isDigit then [([a, b], r)] else []
   | _ => []) ++
  (match s with
   | a :: r => if a.isDigit then [([a], r)] else []
   | _ => [])

/-- Candidates for the greedy star `(?:\.\d{3})*` at the head of `s`, in
backtracking order: as many `.ddd` groups as possible first, down to
zero groups. -/
def groupCands : List Char → List (List Char × List Char)
  | '.' :: a :: b :: c :: r =>
    if a.isDigit && b.isDigit && c.isDigit then
      ((groupCands r).map fun g => ('.' :: a :: b :: c :: g.1, g.2))
        ++ [([], '.' :: a :: b :: c :: r)]
    else [([], '.' :: a :: b :: c :: r)]
  | s => [([], s)]

/-- The tail `,\d{2}` of the money pattern. -/
def moneyTail (pre : List Char) : List Char → Option (List Char × List Char)
  | ',' :: a :: b :: r =>
    if a.isDigit && b.isDigit then some (pre ++ [',', a, b], r) else none
  | _ => none

/-- Try to match `\d{1,3}(?:\.\d{3})*,\d{2}` at the head of `s`
(backtracking order of Python's `re` engine); on success, return the
matched text and the remainder of the string. -/
def matchMoneyAt (s : List Char) : Option (List Char × List Char) :=
  (digitCands s).findSome? fun d =>
    (groupCands d.2).findSome? fun g =>
      moneyTail (d.1 ++ g.1) g.2

/-- Worker for `findAllMoney` with an explicit fuel argument; each step
either consumes at least one character (no match at this position) or a
whole match of at least four characters, so `fuel = s.length` never runs
out. -/
def findAllMoneyF : Nat → List Char → List String
  | 0, _ => []
  | _ + 1, [] => []
  | fuel + 1, c :: rest =>
    match matchMoneyAt (c :: rest) with
    | some m => String.mk m.1 :: findAllMoneyF fuel m.2
    | none => findAllMoneyF fuel rest

/-- `re.findall` of the money pattern (src/main.py line 153): scan left
to right, collecting non-overlapping leftmost matches. -/
def findAllMoney (s : List Char) : List String := findAllMoneyF s.length s

/-- The keyword gate of the sensitive mode (src/main.py line 148). -/
def eh_documento_oficial (text_upper : String) : Bool :=
  substrOf "NOTA DE DÉBITO".data text_upper.data
    || substrOf "PENALIDADE".data text_upper.data
    || substrOf "NOTA FISCAL".data text_upper.data

/-- The candidate loop of `extrair_valor` (src/main.py lines 158-177), as
executed: for each regex match, call `br_money_to_float` (whose exception
propagates, aborting the whole call), then drop calendar-year values and
apply the mode-dependent threshold. -/
def filtrarValores (eh : Bool) : List String → Except String (List ℚ)
  | [] => Except.ok []
  | v :: rest => do
    let f ← br_money_to_float v
    let tail ← filtrarValores eh rest
    if f = 2024 ∨ f = 2025 ∨ f = 2026 ∨ f = 2027 then Except.ok tail
    else if eh then (if f > 0 then Except.ok (f :: tail) else Except.ok tail)
    else (if f > 50 then Except.ok (f :: tail) else Except.ok tail)

/-- Same loop with the line-73 slip of `br_money_to_float` removed
(using `br_money_to_float_rest`, the rest of its body). -/
def filtrarValoresFixed (eh : Bool) : List String → List ℚ
  | [] => []
  | v :: rest =>
    if br_money_to_float_rest v = 2024 ∨ br_money_to_float_rest v = 2025 ∨
        br_money_to_float_rest v = 2026 ∨ br_money_to_float_rest v = 2027 then
      filtrarValoresFixed eh rest
    else if eh then
      (if br_money_to_float_rest v > 0 then
        br_money_to_float_rest v :: filtrarValoresFixed eh rest
      else filtrarValoresFixed eh rest)
    else
      (if br_money_to_float_rest v > 50 then
        br_money_to_float_rest v :: filtrarValoresFixed eh rest
      else filtrarValoresFixed eh rest)

/-- Python `max` over a non-empty list (`x` its head). -/
def pyMax (x : ℚ) (xs : List ℚ) : ℚ := xs.foldl max x

/-- Embeds `extrair_valor` (src/main.py lines 137-190) as executed by
CPython: normalize, uppercase, decide sensitive mode, collect regex
candidates, then run the filtering loop — whose very first
`br_money_to_float` call raises, so the call only returns normally when
there is no candidate at all — and finally pick the maximum survivor with
a mode-dependent rationale. -/
def extrair_valor (text : String) : Except String (ℚ × String) :=
  match filtrarValores (eh_documento_oficial (pyUpper (clean_ocr_text text)))
      (findAllMoney (clean_ocr_text text).data) with
  | Except.error e => Except.error e
  | Except.ok [] => Except.ok (0, "Valor não identificado")
  | Except.ok (x :: xs) =>
    Except.ok (pyMax x xs,
      if eh_documento_oficial (pyUpper (clean_ocr_text text)) then
        "Maior Valor (Modo Sensível)"
      else "Maior Valor (>50)")

/-- One page of an opened PDF: the result of `p.extract_text()` (which may
raise, return `None`, or return a string), and the result of
`p.to_image(resolution=dpi).original` followed by
`pytesseract.image_to_string`, as a function of the requested
resolution. -/
structure PdfPage where
  extract : Except String (Option String)
  toImageOcr : Nat → Except String String

/-- A PDF as observed by the reader: `pdfplumber.open` may raise, else
yields the page list. -/
structure PdfDoc where
  pages : Except String (List PdfPage)

/-- The page loop (src/main.py lines 117-119): `p.extract_text() or ""`
per page; the first exception aborts the whole `try` block. -/
def collectTexts : List PdfPage → Except String (List String)
  | [] => Except.ok []
  | p :: ps =>
    match p.extract with
    | Except.error e => Except.error e
    | Except.ok t =>
      match collectTexts ps with
      | Except.error e => Except.error e
      | Except.ok ts => Except.ok (t.getD "" :: ts)

/-- Python `str.strip()`: drop leading and trailing whitespace. -/
def pyStrip (s : List Char) : List Char :=
  ((s.dropWhile Char.isWhitespace).reverse.dropWhile Char.isWhitespace).reverse

/-- Number of non-whitespace characters of a string. -/
def countNonWs (s : List Char) : ℕ :=
  (s.filter (fun c => !c.isWhitespace)).length

/-- Outcome of one reader invocation, instrumented with whether optical
recognition was invoked. -/
structure ReadRun where
  texto : String
  metodo : String
  usedOcr : Bool
  deriving DecidableEq

/-- Embeds `ler_conteudo_pdf` (src/main.py lines 114-133), instrumented
with a `usedOcr` flag: extract every page's text and join with newlines;
if the stripped text is longer than 50 characters return it as
`TEXTO_DIGITAL`; else if OCR is off return the `FALHA` tag; else OCR the
first page (`pdf.pages[0]`) at resolution 300; any raised exception is
caught and becomes the empty text with an `ERRO LEITURA:` diagnostic. -/
def ler_conteudo_pdf_run (ocrAtivado : Bool) (d : PdfDoc) : ReadRun :=
  match d.pages with
  | Except.error e => ⟨"", "ERRO LEITURA: " ++ e, false⟩
  | Except.ok pgs =>
    match collectTexts pgs with
    | Except.error e => ⟨"", "ERRO LEITURA: " ++ e, false⟩
    | Except.ok ts =>
      let texto_digital := String.intercalate "\n" ts
      if 50 < (pyStrip texto_digital.data).length then
        ⟨texto_digital, "TEXTO_DIGITAL", false⟩
      else if ocrAtivado = false then
        ⟨"", "FALHA: É imagem e Tesseract não foi achado.", false⟩
      else
        match pgs with
        | [] => ⟨"", "ERRO LEITURA: list index out of range", false⟩
        | p :: _ =>
          match p.toImageOcr 300 with
          | Except.error e => ⟨"", "ERRO LEITURA: " ++ e, true⟩
          | Except.ok texto_lido => ⟨texto_lido, "OCR (IA Visual)", true⟩

/-- The pair actually returned by `ler_conteudo_pdf`. -/
def ler_conteudo_pdf (ocrAtivado : Bool) (d : PdfDoc) : String × String :=
  ((ler_conteudo_pdf_run ocrAtivado d).texto,
    (ler_conteudo_pdf_run ocrAtivado d).metodo)

/-- The per-file record (`PdfItem` dataclass, src/main.py lines 51-62);
`amount` is modelled exactly as `ℚ`. -/
structure PdfItem where
  file_name : String
  file_path : String
  category : String
  amount : ℚ
  status : String
  method : String
  deriving DecidableEq

/-- A file as observed by the batch loop: what reading it yields (or the
exception reading raises), and what extracting from a given text yields
(or the exception extraction raises). -/
structure FileSpec where
  name : String
  path : String
  readResult : Except String (String × String)
  extract : String → Except String (ℚ × String)

/-- Modelled from the spec: `processar_lista` is called by `App.run`
(src/main.py line 332) but is not defined anywhere in the provided
sources.  Per spec section 4.5, processing one file invokes the Document
Reader then the Amount Extractor and derives the status: `REVISAR`
(NeedsReview) if reading produced no text, `OK` if an amount greater than
0 was extracted, `REVISAR` if text was read but no amount found, `ERRO`
(Error) if reading or extraction raised an unexpected condition, the
condition being caught per file. -/
def processar_arquivo (category : String) (f : FileSpec) : PdfItem :=
  match f.readResult with
  | Except.error e => ⟨f.name, f.path, category, 0, "ERRO", "Erro: " ++ e⟩
  | Except.ok (texto, metodo) =>
    if texto = "" then ⟨f.name, f.path, category, 0, "REVISAR", metodo⟩
    else
      match f.extract texto with
      | Except.error e => ⟨f.name, f.path, category, 0, "ERRO", "Erro: " ++ e⟩
      | Except.ok (valor, msg) =>
        if valor > 0 then ⟨f.name, f.path, category, valor, "OK", msg⟩
        else ⟨f.name, f.path, category, 0, "REVISAR", msg⟩

/-- Modelled from the spec (section 4.5): the batch loop processes each
file independently, in input order. -/
def processar_lista (category : String) (files : List FileSpec) :
    List PdfItem :=
  files.map (processar_arquivo category)

/-- `extrair_valor` with the line-73 slip of `br_money_to_float` removed:
the behaviour the surrounding code and comments describe. -/
def extrair_valor_fixed (text : String) : ℚ × String :=
  match filtrarValoresFixed (eh_documento_oficial (pyUpper (clean_ocr_text text)))
      (findAllMoney (clean_ocr_text text).data) with
  | [] => (0, "Valor não identificado")
  | x :: xs =>
    (pyMax x xs,
      if eh_documento_oficial (pyUpper (clean_ocr_text text)) then
        "Maior Valor (Modo Sensível)"
      else "Maior Valor (>50)")

/-! ## Theorems -/

theorem pyRepF_fuel (p : Char) (ps rep : List Char) :
    ∀ f1 s, s.length ≤ f1 → ∀ f2, s.length ≤ f2 →
      pyRepF p ps rep f1 s = pyRepF p ps rep f2 s := by
  intro f1
  induction f1 with
  | zero =>
    intro s h1 f2 _
    rw [List.length_eq_zero.mp (Nat.le_zero.mp h1)]
    cases f2 <;> rfl
  | succ f1 ih =>
    intro s h1 f2 h2
    cases s with
    | nil => cases f2 <;> rfl
    | cons c rest =>
      cases f2 with
      | zero => simp at h2
      | succ f2 =>
        simp only [pyRepF]
        by_cases hpre : (p :: ps) <+: (c :: rest)
        · rw [if_pos hpre, if_pos hpre]
          congr 1
          exact ih _
            (by simp only [List.length_drop]; simp only [List.length_cons] at h1; omega) _
            (by simp only [List.length_drop]; simp only [List.length_cons] at h2; omega)
        · rw [if_neg hpre, if_neg hpre]
          congr 1
          exact ih rest (by simp only [List.length_cons] at h1; omega) _
            (by simp only [List.length_cons] at h2; omega)

theorem pyReplace_nil (p : Char) (ps rep : List Char) :
    pyReplace p ps rep [] = [] := rfl

/-- Unfolding equation of `pyReplace` on a non-empty string. -/
theorem pyReplace_cons (p : Char) (ps rep : List Char) (c : Char) (rest : List Char) :
    pyReplace p ps rep (c :: rest) =
      if (p :: ps) <+: (c :: rest) then
        rep ++ pyReplace p ps rep (List.drop ps.length rest)
      else
        c :: pyReplace p ps rep rest := by
  show pyRepF p ps rep (rest.length + 1) (c :: rest) = _
  simp only [pyRepF]
  split
  · rw [pyRepF_fuel p ps rep rest.length (List.drop ps.length rest)
      (by simp only [List.length_drop]; omega) (List.drop ps.length rest).length
      (Nat.le_refl _)]
    rfl
  · rfl

/-- Characters of `pyReplace` output come from the input or the
replacement. -/
theorem mem_pyReplace (p : Char) (ps rep s : List Char) (c : Char)
    (h : c ∈ pyReplace p ps rep s) : c ∈ s ∨ c ∈ rep := by
  unfold pyReplace at h
  generalize hf : s.length = f at h
  clear hf
  induction f generalizing s with
  | zero => exact Or.inl h
  | succ f ih =>
    match s with
    | [] => simp [pyRepF] at h
    | x :: rest =>
      simp only [pyRepF] at h
      split at h
      · rcases List.mem_append.mp h with h1 | h2
        · exact Or.inr h1
        · rcases ih _ h2 with h3 | h4
          · exact Or.inl (List.mem_cons_of_mem x (List.mem_of_mem_drop h3))
          · exact Or.inr h4
      · rcases List.mem_cons.mp h with h1 | h2
        · exact Or.inl (h1 ▸ List.mem_cons_self x rest)
        · rcases ih _ h2 with h3 | h4
          · exact Or.inl (List.mem_cons_of_mem x h3)
          · exact Or.inr h4

/-- If some character of the pattern does not occur in `s`, the pattern
never matches and `pyReplace` is the identity. -/
theorem pyReplace_of_not_mem (p : Char) (ps rep s : List Char) (c : Char)
    (hc : c ∈ p :: ps) (hs : c ∉ s) : pyReplace p ps rep s = s := by
  induction s with
  | nil => rfl
  | cons x rest ih =>
    rw [pyReplace_cons]
    have hpre : ¬ ((p :: ps) <+: (x :: rest)) := fun hp => hs (hp.subset hc)
    rw [if_neg hpre, ih (fun h => hs (List.mem_cons_of_mem x h))]

/-- For a single-character pattern with a single-character replacement,
`pyReplace` is a character map. -/
theorem pyReplace_single (p r : Char) (s : List Char) :
    pyReplace p [] [r] s = s.map (fun c => if c = p then r else c) := by
  induction s with
  | nil => rfl
  | cons c rest ih =>
    rw [pyReplace_cons]
    by_cases h : c = p
    · subst h
      rw [if_pos (by simp)]
      simpa using ih
    · rw [if_neg (by simp [List.cons_prefix_cons, Ne.symm h]), ih]
      simp [h]

/-- For a single-character pattern with empty replacement, `pyReplace`
removes exactly that character. -/
theorem pyReplace_single_del (p : Char) (s : List Char) :
    pyReplace p [] [] s = s.filter (fun c => c ≠ p) := by
  induction s with
  | nil => rfl
  | cons c rest ih =>
    rw [pyReplace_cons]
    by_cases h : c = p
    · subst h
      rw [if_pos (by simp)]
      simpa using ih
    · rw [if_neg (by simp [List.cons_prefix_cons, Ne.symm h]), ih]
      simp [h]

theorem natDigitsF_fuel :
    ∀ f1 n, n ≤ f1 → ∀ f2, n ≤ f2 → natDigitsF f1 n = natDigitsF f2 n := by
  intro f1
  induction f1 with
  | zero =>
    intro n h1 f2 _
    have hn : n = 0 := Nat.le_zero.mp h1
    subst hn
    cases f2 with
    | zero => rfl
    | succ f2 => simp [natDigitsF]
  | succ f1 ih =>
    intro n h1 f2 h2
    cases f2 with
    | zero =>
      have hn : n = 0 := Nat.le_zero.mp h2
      subst hn
      simp [natDigitsF]
    | succ f2 =>
      simp only [natDigitsF]
      by_cases hlt : n < 10
      · rw [if_pos hlt, if_pos hlt]
      · rw [if_neg hlt, if_neg hlt]
        have hdiv : n / 10 < n := Nat.div_lt_self (by omega) (by norm_num)
        have hd : n / 10 ≤ f1 := by omega
        have hd2 : n / 10 ≤ f2 := by omega
        rw [ih (n / 10) hd f2 hd2]

/-- Unfolding equation of `natDigits`. -/
theorem natDigits_eq (n : ℕ) :
    natDigits n = if n < 10 then [dChar n]
      else natDigits (n / 10) ++ [dChar (n % 10)] := by
  unfold natDigits
  by_cases hlt : n < 10
  · rw [if_pos hlt]
    cases n with
    | zero => rfl
    | succ m => simp [natDigitsF, hlt]
  · rw [if_neg hlt]
    cases n with
    | zero => omega
    | succ m =>
      simp only [natDigitsF, if_neg hlt]
      have hdiv : (m + 1) / 10 < m + 1 := Nat.div_lt_self (by omega) (by norm_num)
      rw [natDigitsF_fuel m ((m + 1) / 10) (by omega) ((m + 1) / 10) (Nat.le_refl _)]

theorem dChar_toNat (d : ℕ) (h : d < 10) : (dChar d).toNat = 48 + d := by
  interval_cases d <;> decide

theorem dChar_isDigit (d : ℕ) (h : d < 10) : (dChar d).isDigit = true := by
  interval_cases d <;> decide

theorem digitVal_dChar (d : ℕ) (h : d < 10) : digitVal (dChar d) = d := by
  interval_cases d <;> decide

theorem digitsVal_append (xs : List Char) (c : Char) :
    digitsVal (xs ++ [c]) = 10 * digitsVal xs + digitVal c := by
  simp [digitsVal, List.foldl_append]

theorem natDigits_ne_nil (n : ℕ) : natDigits n ≠ [] := by
  rw [natDigits_eq]
  split <;> simp

theorem mem_natDigits_isDigit (n : ℕ) (c : Char) (h : c ∈ natDigits n) :
    c.isDigit = true := by
  induction n using Nat.strong_induction_on with
  | _ n ih =>
    rw [natDigits_eq] at h
    split at h
    · next hlt =>
      simp only [List.mem_singleton] at h
      exact h ▸ dChar_isDigit n hlt
    · next hge =>
      rcases List.mem_append.mp h with h1 | h2
      · exact ih (n / 10) (Nat.div_lt_self (by omega) (by norm_num)) h1
      · simp only [List.mem_singleton] at h2
        exact h2 ▸ dChar_isDigit (n % 10) (Nat.mod_lt n (by norm_num))

theorem digitsVal_natDigits (n : ℕ) : digitsVal (natDigits n) = n := by
  induction n using Nat.strong_induction_on with
  | _ n ih =>
    rw [natDigits_eq]
    split
    · next hlt =>
      simp [digitsVal, digitVal_dChar n hlt]
    · next hge =>
      rw [digitsVal_append, ih (n / 10) (Nat.div_lt_self (by omega) (by norm_num)),
        digitVal_dChar (n % 10) (Nat.mod_lt n (by norm_num))]
      omega

theorem map_of_forall_eq (f : Char → Char) (xs : List Char)
    (h : ∀ c ∈ xs, f c = c) : xs.map f = xs := by
  induction xs with
  | nil => rfl
  | cons x rest ih =>
    simp only [List.map_cons, h x (List.mem_cons_self x rest),
      ih (fun c hc => h c (List.mem_cons_of_mem x hc))]

theorem mem_group3rev_bounded (sep : Char) :
    ∀ (n : ℕ) (xs : List Char), xs.length ≤ n →
      ∀ c, c ∈ group3rev sep xs → c ∈ xs ∨ c = sep := by
  intro n
  induction n with
  | zero =>
    intro xs hn c h
    rw [List.length_eq_zero.mp (Nat.le_zero.mp hn)] at h ⊢
    exact Or.inl h
  | succ n ih =>
    intro xs hn c h
    match xs with
    | a :: b :: d :: e :: rest =>
      simp only [group3rev, List.mem_cons] at h
      rcases h with h | h | h | h | h
      · exact Or.inl (by simp [h])
      · exact Or.inl (by simp [h])
      · exact Or.inl (by simp [h])
      · exact Or.inr h
      · rcases ih (e :: rest) (by simp at hn ⊢; omega) c h with h1 | h2
        · exact Or.inl (by simp only [List.mem_cons] at h1 ⊢; tauto)
        · exact Or.inr h2
    | [] => exact Or.inl h
    | [a] => exact Or.inl h
    | [a, b] => exact Or.inl h
    | [a, b, d] => exact Or.inl h

theorem mem_group3rev (sep : Char) (xs : List Char) (c : Char)
    (h : c ∈ group3rev sep xs) : c ∈ xs ∨ c = sep :=
  mem_group3rev_bounded sep xs.length xs (Nat.le_refl _) c h

theorem filter_group3rev_bounded (sep : Char) :
    ∀ (n : ℕ) (xs : List Char), xs.length ≤ n → sep ∉ xs →
      (group3rev sep xs).filter (fun c => c ≠ sep) = xs := by
  have hkeep : ∀ ys : List Char, sep ∉ ys →
      ys.filter (fun c => c ≠ sep) = ys := by
    intro ys hys
    exact List.filter_eq_self.mpr (fun c hc => by
      simp only [ne_eq, decide_eq_true_eq]
      exact fun hc2 => hys (hc2 ▸ hc))
  intro n
  induction n with
  | zero =>
    intro xs hn _
    rw [List.length_eq_zero.mp (Nat.le_zero.mp hn)]
    rfl
  | succ n ih =>
    intro xs hn h
    match xs with
    | a :: b :: d :: e :: rest =>
      have ha : decide (a ≠ sep) = true := by
        simp only [ne_eq, decide_eq_true_eq]
        intro h2; exact h (by simp [h2])
      have hb : decide (b ≠ sep) = true := by
        simp only [ne_eq, decide_eq_true_eq]
        intro h2; exact h (by simp [h2])
      have hd : decide (d ≠ sep) = true := by
        simp only [ne_eq, decide_eq_true_eq]
        intro h2; exact h (by simp [h2])
      have hrec := ih (e :: rest) (by simp at hn ⊢; omega)
        (fun h2 => h (by simp only [List.mem_cons] at h2 ⊢; tauto))
      have hrec2 : List.filter (fun c => !decide (c = sep))
          (group3rev sep (e :: rest)) = e :: rest := by simpa using hrec
      have ha2 : ¬ (a = sep) := by simpa using ha
      have hb2 : ¬ (b = sep) := by simpa using hb
      have hd2 : ¬ (d = sep) := by simpa using hd
      show List.filter _ (a :: b :: d :: sep :: group3rev sep (e :: rest)) = _
      simp [List.filter_cons, ha2, hb2, hd2, hrec2]
    | [] => rfl
    | [a] => exact hkeep [a] h
    | [a, b] => exact hkeep [a, b] h
    | [a, b, d] => exact hkeep [a, b, d] h

theorem filter_group3rev (sep : Char) (xs : List Char) (h : sep ∉ xs) :
    (group3rev sep xs).filter (fun c => c ≠ sep) = xs :=
  filter_group3rev_bounded sep xs.length xs (Nat.le_refl _) h

theorem map_group3rev_bounded (f : Char → Char) (sep : Char) :
    ∀ (n : ℕ) (xs : List Char), xs.length ≤ n →
      (group3rev sep xs).map f = group3rev (f sep) (xs.map f) := by
  intro n
  induction n with
  | zero =>
    intro xs hn
    rw [List.length_eq_zero.mp (Nat.le_zero.mp hn)]
    rfl
  | succ n ih =>
    intro xs hn
    match xs with
    | a :: b :: d :: e :: rest =>
      simp only [group3rev, List.map_cons]
      rw [ih (e :: rest) (by simp at hn ⊢; omega)]
      rfl
    | [] => rfl
    | [a] => rfl
    | [a, b] => rfl
    | [a, b, d] => rfl

theorem map_group3rev (f : Char → Char) (sep : Char) (xs : List Char) :
    (group3rev sep xs).map f = group3rev (f sep) (xs.map f) :=
  map_group3rev_bounded f sep xs.length xs (Nat.le_refl _)

theorem takeWhile_append_not (p : Char → Bool) (xs ys : List Char) (y : Char)
    (hxs : ∀ x ∈ xs, p x) (hy : ¬ p y) :
    (xs ++ y :: ys).takeWhile p = xs := by
  induction xs with
  | nil => simp [List.takeWhile_cons, hy]
  | cons x rest ih =>
    simp only [List.cons_append, List.takeWhile_cons,
      hxs x (List.mem_cons_self x rest), if_true]
    rw [ih (fun a ha => hxs a (List.mem_cons_of_mem x ha))]

theorem dropWhile_append_not (p : Char → Bool) (xs ys : List Char) (y : Char)
    (hxs : ∀ x ∈ xs, p x) (hy : ¬ p y) :
    (xs ++ y :: ys).dropWhile p = y :: ys := by
  induction xs with
  | nil => simp [List.dropWhile_cons, hy]
  | cons x rest ih =>
    simp only [List.cons_append, List.dropWhile_cons,
      hxs x (List.mem_cons_self x rest), if_true]
    exact ih (fun a ha => hxs a (List.mem_cons_of_mem x ha))

theorem isDigit_ne (c : Char) (hc : c.isDigit = true) :
    c ≠ ',' ∧ c ≠ '.' ∧ c ≠ 'X' := by
  simp only [Char.isDigit] at hc
  refine ⟨?_, ?_, ?_⟩ <;> rintro rfl <;> simp at hc

/-- The comma/period swap implemented by the three `replace` calls of
`format_br` (via the `X` placeholder), as a character map, on strings
without an `X`. -/
theorem swap3_eq (s : List Char) (h : 'X' ∉ s) :
    pyReplace 'X' [] ['.'] (pyReplace '.' [] [','] (pyReplace ',' [] ['X'] s)) =
      s.map (fun c => if c = ',' then '.' else if c = '.' then ',' else c) := by
  rw [pyReplace_single, pyReplace_single, pyReplace_single, List.map_map,
    List.map_map]
  apply List.map_congr_left
  intro c hc
  have hcX : c ≠ 'X' := fun h2 => h (h2 ▸ hc)
  simp only [Function.comp]
  by_cases h1 : c = ','
  · subst h1; decide
  · by_cases h2 : c = '.'
    · subst h2; decide
    · simp [h1, h2, hcX]

/-- Closed form of `format_br`: period-grouped integer digits, a comma,
then the two fraction digits. -/
theorem format_br_data (n : ℕ) :
    (format_br n).data =
      (group3rev '.' (natDigits (n / 100)).reverse).reverse
        ++ ',' :: [dChar (n / 10 % 10), dChar (n % 10)] := by
  have hD : ∀ c ∈ (natDigits (n / 100)).reverse, c.isDigit = true := by
    intro c hc
    exact mem_natDigits_isDigit (n / 100) c (List.mem_reverse.mp hc)
  have hF1 : (dChar (n / 10 % 10)).isDigit = true :=
    dChar_isDigit _ (Nat.mod_lt _ (by norm_num))
  have hF2 : (dChar (n % 10)).isDigit = true :=
    dChar_isDigit _ (Nat.mod_lt _ (by norm_num))
  have hX : 'X' ∉ (group3rev ',' (natDigits (n / 100)).reverse).reverse
      ++ '.' :: [dChar (n / 10 % 10), dChar (n % 10)] := by
    intro hmem
    rcases List.mem_append.mp hmem with h | h
    · rcases mem_group3rev ',' _ 'X' (List.mem_reverse.mp h) with h1 | h2
      · have := hD 'X' h1
        exact absurd this (by decide)
      · exact absurd h2 (by decide)
    · rcases List.mem_cons.mp h with h | h
      · exact absurd h (by decide)
      · rcases List.mem_cons.mp h with h | h
        · exact (isDigit_ne _ hF1).2.2 h.symm
        · rcases List.mem_cons.mp h with h | h
          · exact (isDigit_ne _ hF2).2.2 h.symm
          · exact List.not_mem_nil 'X' h
  have hswapD : (natDigits (n / 100)).map
      (fun c => if c = ',' then '.' else if c = '.' then ',' else c) =
      natDigits (n / 100) := by
    apply map_of_forall_eq
    intro c hc
    have hc2 := mem_natDigits_isDigit (n / 100) c hc
    simp [(isDigit_ne c hc2).1, (isDigit_ne c hc2).2.1]
  have hI : ((group3rev ',' (natDigits (n / 100)).reverse).reverse).map
      (fun c => if c = ',' then '.' else if c = '.' then ',' else c) =
      (group3rev '.' (natDigits (n / 100)).reverse).reverse := by
    rw [List.map_reverse, map_group3rev, List.map_reverse, hswapD]
    simp
  have hF : (('.' :: [dChar (n / 10 % 10), dChar (n % 10)]).map
      (fun c => if c = ',' then '.' else if c = '.' then ',' else c)) =
      ',' :: [dChar (n / 10 % 10), dChar (n % 10)] := by
    simp [(isDigit_ne _ hF1).1, (isDigit_ne _ hF1).2.1,
      (isDigit_ne _ hF2).1, (isDigit_ne _ hF2).2.1]
  show String.data (String.mk _) = _
  rw [swap3_eq _ hX, List.map_append, hI, hF]

/-- Parsing a digit string, a period, and a digit fraction. -/
theorem parsePyFloat_digits (D F : List Char)
    (hD : ∀ c ∈ D, c.isDigit = true) (hF : ∀ c ∈ F, c.isDigit = true)
    (hne : D ≠ []) :
    parsePyFloat (D ++ '.' :: F) =
      some (mkRat (digitsVal D * 10 ^ F.length + digitsVal F) (10 ^ F.length)) := by
  unfold parsePyFloat
  rw [takeWhile_append_not _ _ _ '.'
    (fun x hx => by simp [(isDigit_ne x (hD x hx)).2.1]) (by simp)]
  rw [dropWhile_append_not _ _ _ '.'
    (fun x hx => by simp [(isDigit_ne x (hD x hx)).2.1]) (by simp)]
  simp only [List.all_eq_true]
  rw [if_pos (fun c hc => hD c hc)]
  rw [if_pos ⟨fun c hc => hF c hc, Or.inl hne⟩]

/-- Round-trip law for the reachable part of the parser: parsing the
formatted rendering of `n` cents recovers exactly `n / 100`. -/
theorem rest_roundtrip (n : ℕ) :
    br_money_to_float_rest (format_br n) = mkRat n 100 := by
  have hD : ∀ c ∈ natDigits (n / 100), c.isDigit = true :=
    fun c hc => mem_natDigits_isDigit (n / 100) c hc
  have hF1 : (dChar (n / 10 % 10)).isDigit = true :=
    dChar_isDigit _ (Nat.mod_lt _ (by norm_num))
  have hF2 : (dChar (n % 10)).isDigit = true :=
    dChar_isDigit _ (Nat.mod_lt _ (by norm_num))
  have hGmem : ∀ c ∈ (group3rev '.' (natDigits (n / 100)).reverse).reverse,
      c.isDigit = true ∨ c = '.' := by
    intro c hc
    rcases mem_group3rev '.' _ c (List.mem_reverse.mp hc) with h1 | h2
    · exact Or.inl (hD c (List.mem_reverse.mp h1))
    · exact Or.inr h2
  unfold br_money_to_float_rest
  rw [format_br_data n]
  have hfilter : List.filter moneyChar
      ((group3rev '.' (natDigits (n / 100)).reverse).reverse
        ++ ',' :: [dChar (n / 10 % 10), dChar (n % 10)]) =
      (group3rev '.' (natDigits (n / 100)).reverse).reverse
        ++ ',' :: [dChar (n / 10 % 10), dChar (n % 10)] := by
    apply List.filter_eq_self.mpr
    intro c hc
    simp only [List.mem_append, List.mem_cons, List.mem_singleton,
      List.not_mem_nil, or_false] at hc
    unfold moneyChar
    rcases hc with h | h | h | h
    · rcases hGmem c h with h1 | h2
      · simp [h1]
      · simp [h2]
    · simp [h]
    · simp [h, hF1]
    · simp [h, hF2]
  rw [hfilter]
  have hne : (group3rev '.' (natDigits (n / 100)).reverse).reverse
      ++ ',' :: [dChar (n / 10 % 10), dChar (n % 10)] ≠ [] := by
    simp
  rw [if_neg hne]
  rw [pyReplace_single_del, List.filter_append]
  have hfilI : ((group3rev '.' (natDigits (n / 100)).reverse).reverse).filter
      (fun c => c ≠ '.') = natDigits (n / 100) := by
    rw [List.filter_reverse, filter_group3rev '.' _
      (fun hc => by
        have := hD '.' (List.mem_reverse.mp hc)
        simp [Char.isDigit] at this)]
    exact List.reverse_reverse _
  have hfilF : (',' :: [dChar (n / 10 % 10), dChar (n % 10)]).filter
      (fun c => c ≠ '.') = ',' :: [dChar (n / 10 % 10), dChar (n % 10)] := by
    apply List.filter_eq_self.mpr
    intro c hc
    simp only [List.mem_cons, List.mem_singleton, List.not_mem_nil,
      or_false] at hc
    rcases hc with h | h | h
    · simp [h]
    · simp [h, (isDigit_ne _ hF1).2.1]
    · simp [h, (isDigit_ne _ hF2).2.1]
  rw [hfilI, hfilF, pyReplace_single, List.map_append]
  have hmapD : (natDigits (n / 100)).map (fun c => if c = ',' then '.' else c) =
      natDigits (n / 100) :=
    map_of_forall_eq _ _ (fun c hc => if_neg (isDigit_ne c (hD c hc)).1)
  have hmapF : ((',' :: [dChar (n / 10 % 10), dChar (n % 10)]).map
      (fun c => if c = ',' then '.' else c)) =
      '.' :: [dChar (n / 10 % 10), dChar (n % 10)] := by
    simp [(isDigit_ne _ hF1).1, (isDigit_ne _ hF2).1]
  rw [hmapD, hmapF]
  rw [parsePyFloat_digits _ _ hD
    (fun c hc => by
      simp only [List.mem_cons, List.mem_singleton, List.not_mem_nil,
        or_false] at hc
      rcases hc with h | h
      · exact h ▸ hF1
      · exact h ▸ hF2)
    (natDigits_ne_nil (n / 100))]
  have hvals : digitsVal [dChar (n / 10 % 10), dChar (n % 10)] = n % 100 := by
    have h1 : digitVal (dChar (n / 10 % 10)) = n / 10 % 10 :=
      digitVal_dChar _ (Nat.mod_lt _ (by norm_num))
    have h2 : digitVal (dChar (n % 10)) = n % 10 :=
      digitVal_dChar _ (Nat.mod_lt _ (by norm_num))
    simp only [digitsVal, List.foldl_cons, List.foldl_nil, h1, h2]
    omega
  have hlen : ([dChar (n / 10 % 10), dChar (n % 10)] : List Char).length = 2 := rfl
  rw [hlen]
  have h2z : (10 : ℤ) ^ (2 : ℕ) = 100 := by norm_num
  have h2n : (10 : ℕ) ^ (2 : ℕ) = 100 := by norm_num
  rw [h2z, h2n, digitsVal_natDigits, hvals]
  have hz : (↑(n / 100) : ℤ) * 100 + ↑(n % 100) = (↑n : ℤ) := by omega
  rw [hz]

theorem countNonWs_dropWhile (s : List Char) :
    countNonWs (s.dropWhile Char.isWhitespace) = countNonWs s := by
  conv_rhs => rw [← List.takeWhile_append_dropWhile (p := Char.isWhitespace) (l := s)]
  unfold countNonWs
  rw [List.filter_append]
  have hnil : (s.takeWhile Char.isWhitespace).filter (fun c => !c.isWhitespace)
      = [] := by
    rw [List.filter_eq_nil_iff]
    intro a ha
    have := List.mem_takeWhile_imp ha
    simp [this]
  rw [hnil]
  simp

theorem countNonWs_reverse (s : List Char) :
    countNonWs s.reverse = countNonWs s := by
  unfold countNonWs
  rw [List.filter_reverse, List.length_reverse]

theorem countNonWs_le_length (s : List Char) : countNonWs s ≤ s.length :=
  List.length_filter_le _ _

theorem countNonWs_pyStrip (s : List Char) :
    countNonWs (pyStrip s) = countNonWs s := by
  unfold pyStrip
  rw [countNonWs_reverse, countNonWs_dropWhile, countNonWs_reverse,
    countNonWs_dropWhile]

theorem le_pyStrip_length (s : List Char) :
    countNonWs s ≤ (pyStrip s).length := by
  rw [← countNonWs_pyStrip]
  exact countNonWs_le_length _

theorem pyMax_mem (x : ℚ) (xs : List ℚ) : pyMax x xs ∈ x :: xs := by
  induction xs generalizing x with
  | nil => simp [pyMax]
  | cons y ys ih =>
    unfold pyMax
    simp only [List.foldl_cons]
    have h := ih (max x y)
    rcases List.mem_cons.mp h with h1 | h1
    · rcases max_choice x y with h2 | h2
      · rw [pyMax] at h1
        rw [h1, h2]
        exact List.mem_cons_self _ _
      · rw [pyMax] at h1
        rw [h1, h2]
        exact List.mem_cons_of_mem _ (List.mem_cons_self _ _)
    · exact List.mem_cons_of_mem _ (List.mem_cons_of_mem _ h1)

theorem collectTexts_length (pgs : List PdfPage) (ts : List String)
    (h : collectTexts pgs = Except.ok ts) : ts.length = pgs.length := by
  induction pgs generalizing ts with
  | nil =>
    simp only [collectTexts] at h
    cases h
    rfl
  | cons p ps ih =>
    simp only [collectTexts] at h
    cases hx : p.extract with
    | error e => rw [hx] at h; cases h
    | ok t =>
      rw [hx] at h
      cases hc : collectTexts ps with
      | error e => rw [hc] at h; cases h
      | ok ts2 =>
        rw [hc] at h
        cases h
        simp [ih ts2 hc]

theorem filtrarValores_cons (eh : Bool) (v : String) (rest : List String) :
    filtrarValores eh (v :: rest) = Except.error unboundLocalClean := rfl

/-- The faithful `extrair_valor` in closed form: it raises as soon as the
money regex finds any candidate (because `br_money_to_float` raises), and
returns `(0, "Valor não identificado")` otherwise. -/
theorem extrair_valor_eq (text : String) :
    extrair_valor text =
      if findAllMoney (clean_ocr_text text).data = [] then
        Except.ok ((0 : ℚ), "Valor não identificado")
      else Except.error unboundLocalClean := by
  cases hlist : findAllMoney (clean_ocr_text text).data with
  | nil =>
    rw [if_pos rfl]
    unfold extrair_valor
    rw [hlist]
    rfl
  | cons v rest =>
    rw [if_neg (by simp)]
    unfold extrair_valor
    rw [hlist, filtrarValores_cons]

theorem not_mem_map_subst (p r : Char) (s : List Char) (hpr : r ≠ p) :
    p ∉ s.map (fun c => if c = p then r else c) := by
  intro hmem
  rcases List.mem_map.mp hmem with ⟨x, hx, hfx⟩
  by_cases hxp : x = p
  · rw [if_pos hxp] at hfx
    exact hpr hfx
  · rw [if_neg hxp] at hfx
    exact hxp hfx

theorem clean_ocr_text_data (t : String) (h : ¬ (t = "")) :
    (clean_ocr_text t).data =
      pyReplace '=' [] [' ', '=', ' ']
        (pyReplace '$' ['='] [' ']
          (pyReplace 'l' [] ['1']
            (pyReplace '!' [] ['1']
              (pyReplace '|' [] [] t.data)))) := by
  unfold clean_ocr_text
  rw [if_neg h]

theorem clean_no_bar (t : String) : '|' ∉ (clean_ocr_text t).data := by
  by_cases h : t = ""
  · rw [h]
    simp [clean_ocr_text]
  · rw [clean_ocr_text_data t h]
    intro hmem
    rcases mem_pyReplace _ _ _ _ _ hmem with h5 | h5
    · rcases mem_pyReplace _ _ _ _ _ h5 with h4 | h4
      · rcases mem_pyReplace _ _ _ _ _ h4 with h3 | h3
        · rcases mem_pyReplace _ _ _ _ _ h3 with h2 | h2
          · rw [pyReplace_single_del] at h2
            have := List.of_mem_filter h2
            simp at this
          · simp at h2
        · simp at h3
      · simp at h4
    · simp at h5

theorem clean_no_bang (t : String) : '!' ∉ (clean_ocr_text t).data := by
  by_cases h : t = ""
  · rw [h]
    simp [clean_ocr_text]
  · rw [clean_ocr_text_data t h]
    intro hmem
    rcases mem_pyReplace _ _ _ _ _ hmem with h5 | h5
    · rcases mem_pyReplace _ _ _ _ _ h5 with h4 | h4
      · rcases mem_pyReplace _ _ _ _ _ h4 with h3 | h3
        · rw [pyReplace_single] at h3
          exact not_mem_map_subst '!' '1' _ (by decide) h3
        · simp at h3
      · simp at h4
    · simp at h5

theorem clean_no_ell (t : String) : 'l' ∉ (clean_ocr_text t).data := by
  by_cases h : t = ""
  · rw [h]
    simp [clean_ocr_text]
  · rw [clean_ocr_text_data t h]
    intro hmem
    rcases mem_pyReplace _ _ _ _ _ hmem with h5 | h5
    · rcases mem_pyReplace _ _ _ _ _ h5 with h4 | h4
      · rw [pyReplace_single] at h4
        exact not_mem_map_subst 'l' '1' _ (by decide) h4
      · simp at h4
    · simp at h5

/-- On any text whose normalized form contains no equals sign, a second
pass of the normalizer changes nothing. -/
theorem clean_idem_of_no_eq (t : String)
    (h : '=' ∉ (clean_ocr_text t).data) :
    clean_ocr_text (clean_ocr_text t) = clean_ocr_text t := by
  by_cases h0 : clean_ocr_text t = ""
  · rw [h0]
    rfl
  · have houter := clean_ocr_text_data (clean_ocr_text t) h0
    rw [pyReplace_of_not_mem '|' [] [] _ '|' (by simp) (clean_no_bar t)] at houter
    rw [pyReplace_of_not_mem '!' [] ['1'] _ '!' (by simp) (clean_no_bang t)]
      at houter
    rw [pyReplace_of_not_mem 'l' [] ['1'] _ 'l' (by simp) (clean_no_ell t)]
      at houter
    rw [pyReplace_of_not_mem '$' ['='] [' '] _ '=' (by simp) h] at houter
    rw [pyReplace_of_not_mem '=' [] [' ', '=', ' '] _ '=' (by simp) h] at houter
    have hmk : String.mk ((clean_ocr_text (clean_ocr_text t)).data) =
        String.mk ((clean_ocr_text t).data) := by rw [houter]
    exact hmk

theorem mem_filtrarValoresFixed_not_year (eh : Bool) (vs : List String)
    (f : ℚ) (h : f ∈ filtrarValoresFixed eh vs) :
    f ≠ 2024 ∧ f ≠ 2025 ∧ f ≠ 2026 ∧ f ≠ 2027 := by
  induction vs with
  | nil => simp [filtrarValoresFixed] at h
  | cons v rest ih =>
    rw [filtrarValoresFixed] at h
    split at h
    · exact ih h
    · next hyear =>
      push_neg at hyear
      split at h
      · split at h
        · rcases List.mem_cons.mp h with h1 | h1
          · exact h1 ▸ ⟨hyear.1, hyear.2.1, hyear.2.2.1, hyear.2.2.2⟩
          · exact ih h1
        · exact ih h
      · split at h
        · rcases List.mem_cons.mp h with h1 | h1
          · exact h1 ▸ ⟨hyear.1, hyear.2.1, hyear.2.2.1, hyear.2.2.2⟩
          · exact ih h1
        · exact ih h

/-- Whatever `extrair_valor_fixed` returns, it is never one of the
calendar-year values filtered at src/main.py lines 166-167. -/
theorem extrair_valor_fixed_not_year (text : String) (v : ℚ) (msg : String)
    (h : extrair_valor_fixed text = (v, msg)) :
    v ≠ 2024 ∧ v ≠ 2025 ∧ v ≠ 2026 ∧ v ≠ 2027 := by
  unfold extrair_valor_fixed at h
  rcases hlist : filtrarValoresFixed
      (eh_documento_oficial (pyUpper (clean_ocr_text text)))
      (findAllMoney (clean_ocr_text text).data) with _ | ⟨x, xs⟩
  · rw [hlist] at h
    simp only [Prod.mk.injEq] at h
    rw [← h.1]
    refine ⟨?_, ?_, ?_, ?_⟩ <;> decide
  · rw [hlist] at h
    simp only [Prod.mk.injEq] at h
    have hmem : pyMax x xs ∈ x :: xs := pyMax_mem x xs
    rw [← hlist] at hmem
    exact h.1 ▸ mem_filtrarValoresFixed_not_year _ _ _ hmem

/-- Claim C1 (code bug): the spec says `br_money_to_float` always returns
a number and never raises, mapping the empty string and `"abc"` to 0 and
`"R$ 1.234,56"` to 1234.56.  The code instead raises `UnboundLocalError`
on every input (line 73 reads the local `clean` before its assignment at
line 76).  The remainder of its body — the evident intent, whose guard at
line 77 duplicates line 73 correctly — does satisfy the three claimed
values. -/
theorem claim_C1_parser_total :
    (∀ raw : String, br_money_to_float raw = Except.error unboundLocalClean) ∧
    br_money_to_float_rest "" = 0 ∧
    br_money_to_float_rest "abc" = 0 ∧
    br_money_to_float_rest "R$ 1.234,56" = mkRat 123456 100 :=
  ⟨fun _ => rfl, by decide, by decide, by decide⟩

/-- Claim C2 (code bug): the spec says `extrair_valor` returns the
maximum surviving candidate, and `(0, "Valor não identificado")` exactly
when the text is empty or nothing survives.  In fact the call raises
`UnboundLocalError` as soon as the money regex finds any candidate at all
(first conjunct, at the failing input `"Total 100,00"`; second conjunct in
closed form), so a value is never returned; with the line-73 slip removed
the claimed max-selection behaviour holds (third conjunct), and the
no-candidate path does return the not-identified pair (fourth). -/
theorem claim_C2_extractor_max :
    extrair_valor "Total 100,00" = Except.error unboundLocalClean ∧
    (∀ text : String, extrair_valor text =
      if findAllMoney (clean_ocr_text text).data = [] then
        Except.ok ((0 : ℚ), "Valor não identificado")
      else Except.error unboundLocalClean) ∧
    extrair_valor_fixed "Total 100,00 e 2.500,00" =
      (2500, "Maior Valor (>50)") ∧
    extrair_valor_fixed "" = (0, "Valor não identificado") :=
  ⟨by decide, extrair_valor_eq, by decide, by decide⟩

/-- Claim C3 (code bug): the spec says that with an official-document
keyword (sensitive mode) every non-year candidate greater than 0 is
accepted, so `"NOTA FISCAL 37,88"` yields 37.88.  The code instead raises
`UnboundLocalError` on that input (first conjunct).  With the line-73
slip removed, the claimed mode behaviour holds: the keyword admits 37.88
(second conjunct) and without it 37.88 is rejected by the threshold of 50
(third conjunct). -/
theorem claim_C3_sensitive_mode :
    extrair_valor "NOTA FISCAL 37,88" = Except.error unboundLocalClean ∧
    extrair_valor_fixed "NOTA FISCAL 37,88" =
      (mkRat 3788 100, "Maior Valor (Modo Sensível)") ∧
    extrair_valor_fixed "RECIBO 37,88" = (0, "Valor não identificado") :=
  ⟨by decide, by decide, by decide⟩

/-- Claim C4 (code bug): the round-trip law — parsing the formatted
rendering of any two-decimal value `x` gives back `x` — fails for every
such value (given as `n` cents), because the parser raises
`UnboundLocalError` instead of returning; the remainder of the parser's
body — the evident intent — does satisfy the round-trip law exactly. -/
theorem claim_C4_roundtrip (n : ℕ) :
    br_money_to_float (format_br n) = Except.error unboundLocalClean ∧
    br_money_to_float_rest (format_br n) = mkRat n 100 :=
  ⟨rfl, rest_roundtrip n⟩

/-- Claim C5 (code bug): the date-like text `"25/12/2025"` indeed yields
`(0, "Valor não identificado")` (no regex candidate).  But the year
filter itself is unreachable: on `"2.025,00"`, whose single candidate
parses to the year value 2025, the claim implies the candidate is
discarded and `(0, "Valor não identificado")` returned, while the code
raises `UnboundLocalError` before the year comparison runs.  With the
line-73 slip removed, the filter behaves as claimed: the year candidate
is discarded (third conjunct) and no returned amount ever equals one of
2024, 2025, 2026, 2027 (fourth conjunct). -/
theorem claim_C5_year_filter :
    extrair_valor "25/12/2025" = Except.ok ((0 : ℚ), "Valor não identificado") ∧
    extrair_valor "2.025,00" = Except.error unboundLocalClean ∧
    extrair_valor_fixed "2.025,00" = (0, "Valor não identificado") ∧
    (∀ (text : String) (v : ℚ) (msg : String),
      extrair_valor_fixed text = (v, msg) →
      v ≠ 2024 ∧ v ≠ 2025 ∧ v ≠ 2026 ∧ v ≠ 2027) :=
  ⟨by decide, by decide, by decide,
    fun text v msg h => extrair_valor_fixed_not_year text v msg h⟩

/-- Witness for claim C5's universal conjunct at the concrete input of
the empty string. -/
theorem claim_C5_year_filter_witness :
    (0 : ℚ) ≠ 2024 ∧ (0 : ℚ) ≠ 2025 ∧ (0 : ℚ) ≠ 2026 ∧ (0 : ℚ) ≠ 2027 :=
  claim_C5_year_filter.2.2.2 "" 0 "Valor não identificado" (by decide)

/-- Claim C6 (confirmed; the batch loop `processar_lista` is modelled
from spec section 4.5, its definition being absent from the provided
sources): each file is processed independently — a failing document never
affects any other record (first conjunct) — and the record status is
`ERRO` when reading raised, `REVISAR` when reading produced no text,
`ERRO` when extraction raised, `OK` with the extracted amount when an
amount greater than 0 was extracted, and `REVISAR` when text was read but
no amount found. -/
theorem claim_C6_batch_statuses :
    (∀ (cat : String) (xs ys : List FileSpec) (f : FileSpec),
      processar_lista cat (xs ++ f :: ys) =
        processar_lista cat xs
          ++ processar_arquivo cat f :: processar_lista cat ys) ∧
    (∀ (cat : String) (f : FileSpec) (e : String),
      f.readResult = Except.error e →
      (processar_arquivo cat f).status = "ERRO" ∧
      (processar_arquivo cat f).amount = 0) ∧
    (∀ (cat : String) (f : FileSpec) (metodo : String),
      f.readResult = Except.ok ("", metodo) →
      (processar_arquivo cat f).status = "REVISAR" ∧
      (processar_arquivo cat f).amount = 0) ∧
    (∀ (cat : String) (f : FileSpec) (texto metodo e : String),
      f.readResult = Except.ok (texto, metodo) → ¬ (texto = "") →
      f.extract texto = Except.error e →
      (processar_arquivo cat f).status = "ERRO" ∧
      (processar_arquivo cat f).amount = 0) ∧
    (∀ (cat : String) (f : FileSpec) (texto metodo msg : String) (v : ℚ),
      f.readResult = Except.ok (texto, metodo) → ¬ (texto = "") →
      f.extract texto = Except.ok (v, msg) → v > 0 →
      (processar_arquivo cat f).status = "OK" ∧
      (processar_arquivo cat f).amount = v) ∧
    (∀ (cat : String) (f : FileSpec) (texto metodo msg : String) (v : ℚ),
      f.readResult = Except.ok (texto, metodo) → ¬ (texto = "") →
      f.extract texto = Except.ok (v, msg) → ¬ (v > 0) →
      (processar_arquivo cat f).status = "REVISAR" ∧
      (processar_arquivo cat f).amount = 0) := by
  refine ⟨?_, ?_, ?_, ?_, ?_, ?_⟩
  · intro cat xs ys f
    simp [processar_lista]
  · intro cat f e h
    unfold processar_arquivo
    rw [h]
    exact ⟨by trivial, by trivial⟩
  · intro cat f metodo h
    unfold processar_arquivo
    rw [h]
    exact ⟨by trivial, by trivial⟩
  · intro cat f texto metodo e hr ht he
    unfold processar_arquivo
    rw [hr]
    simp only [if_neg ht]
    rw [he]
    exact ⟨by trivial, by trivial⟩
  · intro cat f texto metodo msg v hr ht he hv
    unfold processar_arquivo
    rw [hr]
    simp only [if_neg ht]
    rw [he]
    simp only [if_pos hv]
    exact ⟨by trivial, by trivial⟩
  · intro cat f texto metodo msg v hr ht he hv
    unfold processar_arquivo
    rw [hr]
    simp only [if_neg ht]
    rw [he]
    simp only [if_neg hv]
    exact ⟨by trivial, by trivial⟩

/-- Witness for claim C6 at concrete inputs: a reader-raising file
sandwiched between two normal files is recorded as `ERRO` while both
neighbours are processed and recorded (`OK` and `REVISAR`). -/
theorem claim_C6_batch_statuses_witness :
    processar_lista "Receita"
        [⟨"a.pdf", "/a.pdf", Except.ok ("texto", "TEXTO_DIGITAL"),
            fun _ => Except.ok (100, "Maior Valor (>50)")⟩,
          ⟨"b.pdf", "/b.pdf", Except.error "boom",
            fun _ => Except.ok (100, "Maior Valor (>50)")⟩,
          ⟨"c.pdf", "/c.pdf", Except.ok ("", "FALHA: sem texto"),
            fun _ => Except.ok (100, "Maior Valor (>50)")⟩] =
      processar_lista "Receita"
          [⟨"a.pdf", "/a.pdf", Except.ok ("texto", "TEXTO_DIGITAL"),
              fun _ => Except.ok (100, "Maior Valor (>50)")⟩]
        ++ processar_arquivo "Receita"
            ⟨"b.pdf", "/b.pdf", Except.error "boom",
              fun _ => Except.ok (100, "Maior Valor (>50)")⟩
          :: processar_lista "Receita"
              [⟨"c.pdf", "/c.pdf", Except.ok ("", "FALHA: sem texto"),
                  fun _ => Except.ok (100, "Maior Valor (>50)")⟩] ∧
    (processar_arquivo "Receita"
        ⟨"b.pdf", "/b.pdf", Except.error "boom",
          fun _ => Except.ok (100, "Maior Valor (>50)")⟩).status = "ERRO" ∧
    (processar_arquivo "Receita"
        ⟨"a.pdf", "/a.pdf", Except.ok ("texto", "TEXTO_DIGITAL"),
          fun _ => Except.ok (100, "Maior Valor (>50)")⟩).status = "OK" ∧
    (processar_arquivo "Receita"
        ⟨"c.pdf", "/c.pdf", Except.ok ("", "FALHA: sem texto"),
          fun _ => Except.ok (100, "Maior Valor (>50)")⟩).status = "REVISAR" :=
  ⟨claim_C6_batch_statuses.1 "Receita" [_] [_] _,
    (claim_C6_batch_statuses.2.1 "Receita" _ "boom" rfl).1,
    (claim_C6_batch_statuses.2.2.2.2.1 "Receita" _ "texto" "TEXTO_DIGITAL"
      "Maior Valor (>50)" 100 rfl (by decide) rfl (by decide)).1,
    (claim_C6_batch_statuses.2.2.1 "Receita" _ "FALHA: sem texto" rfl).1⟩

/-- Claim C7 (confirmed): `ler_conteudo_pdf` converts every exception —
during open, page-text extraction, or recognition — into the pair of an
empty text and an `ERRO LEITURA:` diagnostic, and returns the
recognition-unavailable `FALHA` provenance with empty text when the text
is short and the OCR engine is off; no exception reaches the caller (the
embedding is a total function into pairs). -/
theorem claim_C7_reader_never_raises :
    (∀ (ocr : Bool) (d : PdfDoc) (e : String),
      d.pages = Except.error e →
      ler_conteudo_pdf ocr d = ("", "ERRO LEITURA: " ++ e)) ∧
    (∀ (ocr : Bool) (d : PdfDoc) (pgs : List PdfPage) (e : String),
      d.pages = Except.ok pgs → collectTexts pgs = Except.error e →
      ler_conteudo_pdf ocr d = ("", "ERRO LEITURA: " ++ e)) ∧
    (∀ (d : PdfDoc) (p : PdfPage) (rest : List PdfPage) (ts : List String)
        (e : String),
      d.pages = Except.ok (p :: rest) →
      collectTexts (p :: rest) = Except.ok ts →
      (pyStrip (String.intercalate "\n" ts).data).length ≤ 50 →
      p.toImageOcr 300 = Except.error e →
      ler_conteudo_pdf true d = ("", "ERRO LEITURA: " ++ e)) ∧
    (∀ (d : PdfDoc) (pgs : List PdfPage) (ts : List String),
      d.pages = Except.ok pgs → collectTexts pgs = Except.ok ts →
      (pyStrip (String.intercalate "\n" ts).data).length ≤ 50 →
      ler_conteudo_pdf false d =
        ("", "FALHA: É imagem e Tesseract não foi achado.")) := by
  refine ⟨?_, ?_, ?_, ?_⟩
  · intro ocr d e h
    unfold ler_conteudo_pdf ler_conteudo_pdf_run
    rw [h]
  · intro ocr d pgs e hp hc
    unfold ler_conteudo_pdf ler_conteudo_pdf_run
    rw [hp]
    simp [hc]
  · intro d p rest ts e hp hc hlen hocr
    have hlt : ¬ (50 < (pyStrip (String.intercalate "\n" ts).data).length) := by
      omega
    unfold ler_conteudo_pdf ler_conteudo_pdf_run
    rw [hp]
    simp [hc, hlt, hocr]
  · intro d pgs ts hp hc hlen
    have hlt : ¬ (50 < (pyStrip (String.intercalate "\n" ts).data).length) := by
      omega
    unfold ler_conteudo_pdf ler_conteudo_pdf_run
    rw [hp]
    simp [hc, hlt]

/-- Witness for claim C7 at concrete documents: an open failure, an
extraction failure, a recognition failure, and recognition unavailable. -/
theorem claim_C7_reader_never_raises_witness :
    ler_conteudo_pdf true ⟨Except.error "cannot open"⟩ =
      ("", "ERRO LEITURA: cannot open") ∧
    ler_conteudo_pdf true
        ⟨Except.ok [⟨Except.error "bad page", fun _ => Except.ok "x"⟩]⟩ =
      ("", "ERRO LEITURA: bad page") ∧
    ler_conteudo_pdf true
        ⟨Except.ok [⟨Except.ok none, fun _ => Except.error "tesseract died"⟩]⟩ =
      ("", "ERRO LEITURA: tesseract died") ∧
    ler_conteudo_pdf false
        ⟨Except.ok [⟨Except.ok none, fun _ => Except.ok "x"⟩]⟩ =
      ("", "FALHA: É imagem e Tesseract não foi achado.") :=
  ⟨claim_C7_reader_never_raises.1 true _ "cannot open" rfl,
    claim_C7_reader_never_raises.2.1 true _
      [⟨Except.error "bad page", fun _ => Except.ok "x"⟩] "bad page" rfl rfl,
    claim_C7_reader_never_raises.2.2.1 _
      ⟨Except.ok none, fun _ => Except.error "tesseract died"⟩ [] [""]
      "tesseract died" rfl rfl (by decide) rfl,
    claim_C7_reader_never_raises.2.2.2 _
      [⟨Except.ok none, fun _ => Except.ok "x"⟩] [""] rfl rfl (by decide)⟩

/-- Claim C8 (confirmed): whenever the concatenated embedded text of the
pages has more than 50 non-whitespace characters, the reader returns that
text with the `TEXTO_DIGITAL` provenance and never invokes optical
recognition (the instrumented `usedOcr` flag is `false`), for either
state of the OCR engine. -/
theorem claim_C8_digital_text (ocr : Bool) (d : PdfDoc) (pgs : List PdfPage)
    (ts : List String) (hp : d.pages = Except.ok pgs)
    (hc : collectTexts pgs = Except.ok ts)
    (hlen : 50 < countNonWs (String.intercalate "\n" ts).data) :
    ler_conteudo_pdf_run ocr d =
      ⟨String.intercalate "\n" ts, "TEXTO_DIGITAL", false⟩ ∧
    ler_conteudo_pdf ocr d = (String.intercalate "\n" ts, "TEXTO_DIGITAL") := by
  have hgt : 50 < (pyStrip (String.intercalate "\n" ts).data).length :=
    lt_of_lt_of_le hlen (le_pyStrip_length _)
  constructor
  · unfold ler_conteudo_pdf_run
    rw [hp]
    simp [hc, hgt]
  · unfold ler_conteudo_pdf ler_conteudo_pdf_run
    rw [hp]
    simp [hc, hgt]

/-- Witness for claim C8 at a concrete document whose embedded text has
60 non-whitespace characters. -/
theorem claim_C8_digital_text_witness :
    ler_conteudo_pdf_run true
        ⟨Except.ok [⟨Except.ok
            (some "aaaaaaaaaaaaaaaaaaaaaaaaaaaaaaaaaaaaaaaaaaaaaaaaaaaaaaaaaaaa"),
          fun _ => Except.ok "ocr text"⟩]⟩ =
      ⟨"aaaaaaaaaaaaaaaaaaaaaaaaaaaaaaaaaaaaaaaaaaaaaaaaaaaaaaaaaaaa",
        "TEXTO_DIGITAL", false⟩ :=
  (claim_C8_digital_text true _
    [⟨Except.ok
        (some "aaaaaaaaaaaaaaaaaaaaaaaaaaaaaaaaaaaaaaaaaaaaaaaaaaaaaaaaaaaa"),
      fun _ => Except.ok "ocr text"⟩]
    ["aaaaaaaaaaaaaaaaaaaaaaaaaaaaaaaaaaaaaaaaaaaaaaaaaaaaaaaaaaaa"]
    rfl rfl (by decide)).1

/-- Claim C9, counterexample: the normalizer is not idempotent on
already-normalized text.  Normalizing `"="` gives `" = "`, an
already-clean text, but a second pass widens the padding again, so
normalizing twice differs from normalizing once. -/
theorem claim_C9_idempotent_counterexample :
    clean_ocr_text (clean_ocr_text "=") ≠ clean_ocr_text "=" := by decide

/-- Claim C9 as amended: the normalizer is idempotent exactly where the
equals-padding rule cannot re-fire — on every text whose normalized form
contains no `=` character, a second application changes nothing.  (The
other substitutions never re-fire: `|`, `!` and `l` are absent from any
normalizer output, as is the pair `$=`.) -/
theorem claim_C9_idempotent_amended (t : String)
    (h : '=' ∉ (clean_ocr_text t).data) :
    clean_ocr_text (clean_ocr_text t) = clean_ocr_text t :=
  clean_idem_of_no_eq t h

/-- Witness for amended claim C9 at a concrete input with recognition
artifacts but no equals sign. -/
theorem claim_C9_idempotent_amended_witness :
    clean_ocr_text (clean_ocr_text "Tota| R$ 37,88!") =
      clean_ocr_text "Tota| R$ 37,88!" :=
  claim_C9_idempotent_amended "Tota| R$ 37,88!" (by decide)

/-- Claim C10 (confirmed): when recognition runs (short embedded text,
engine available), the reader rasterizes and recognizes only the first
page — `pdf.pages[0]` at resolution 300 — whatever the other pages would
recognize as (first two conjuncts: the result is exactly page 0's
recognition at 300 DPI, with `usedOcr = true`), while embedded digital
text is extracted from every page (last conjunct: one extracted text per
page). -/
theorem claim_C10_ocr_first_page_only (d : PdfDoc) (p : PdfPage)
    (rest : List PdfPage) (ts : List String) (txt : String)
    (hp : d.pages = Except.ok (p :: rest))
    (hc : collectTexts (p :: rest) = Except.ok ts)
    (hshort : (pyStrip (String.intercalate "\n" ts).data).length ≤ 50)
    (hocr : p.toImageOcr 300 = Except.ok txt) :
    ler_conteudo_pdf_run true d = ⟨txt, "OCR (IA Visual)", true⟩ ∧
    ler_conteudo_pdf true d = (txt, "OCR (IA Visual)") ∧
    ts.length = (p :: rest).length := by
  have hlt : ¬ (50 < (pyStrip (String.intercalate "\n" ts).data).length) := by
    omega
  refine ⟨?_, ?_, collectTexts_length _ _ hc⟩
  · unfold ler_conteudo_pdf_run
    rw [hp]
    simp [hc, hlt, hocr]
  · unfold ler_conteudo_pdf ler_conteudo_pdf_run
    rw [hp]
    simp [hc, hlt, hocr]

/-- Witness for claim C10 at a concrete two-page scanned document: the
result is page one's recognized text; page two's never appears. -/
theorem claim_C10_ocr_first_page_only_witness :
    ler_conteudo_pdf_run true
        ⟨Except.ok [⟨Except.ok none, fun _ => Except.ok "PAGINA UM 99,99"⟩,
          ⟨Except.ok none, fun _ => Except.ok "PAGINA DOIS 11,11"⟩]⟩ =
      ⟨"PAGINA UM 99,99", "OCR (IA Visual)", true⟩ ∧
    ([(""  : String), ""] : List String).length =
      ([⟨Except.ok none, fun _ => Except.ok "PAGINA UM 99,99"⟩,
        ⟨Except.ok none, fun _ => Except.ok "PAGINA DOIS 11,11"⟩] :
          List PdfPage).length :=
  ⟨(claim_C10_ocr_first_page_only _
      ⟨Except.ok none, fun _ => Except.ok "PAGINA UM 99,99"⟩
      [⟨Except.ok none, fun _ => Except.ok "PAGINA DOIS 11,11"⟩]
      ["", ""] "PAGINA UM 99,99" rfl rfl (by decide) rfl).1,
    (claim_C10_ocr_first_page_only _
      ⟨Except.ok none, fun _ => Except.ok "PAGINA UM 99,99"⟩
      [⟨Except.ok none, fun _ => Except.ok "PAGINA DOIS 11,11"⟩]
      ["", ""] "PAGINA UM 99,99" rfl rfl (by decide) rfl).2.2⟩

/-- Witness for claim C1 at the concrete input `"R$ 5,00"`. -/
theorem claim_C1_parser_total_witness :
    br_money_to_float "R$ 5,00" = Except.error unboundLocalClean :=
  claim_C1_parser_total.1 "R$ 5,00"

/-- Witness for claim C2's universal conjunct at the concrete input
`"sem valor"`. -/
theorem claim_C2_extractor_max_witness :
    extrair_valor "sem valor" =
      if findAllMoney (clean_ocr_text "sem valor").data = [] then
        Except.ok ((0 : ℚ), "Valor não identificado")
      else Except.error unboundLocalClean :=
  claim_C2_extractor_max.2.1 "sem valor"

/-- Witness for claim C4 at the concrete value 42.57 (4257 cents). -/
theorem claim_C4_roundtrip_witness :
    br_money_to_float (format_br 4257) = Except.error unboundLocalClean ∧
    br_money_to_float_rest (format_br 4257) = mkRat 4257 100 :=
  claim_C4_roundtrip 4257
